import Mathlib

/-!
Verification of the PDF-ingestion pipeline of `unchained-docs-to-knowledge`.

Text is modelled as `List Char` (Python strings are sequences of code
points).  External collaborators (OCR engine, LLM endpoint, file system,
HTTP transport) are modelled as explicit outcome parameters; calls to them
are recorded in explicit call traces so that "X is never invoked" claims
are statable.  The SQLite store is modelled as a list of records plus a
`broken` flag standing for "any operation on the connection raises".
-/

namespace DocsPipeline

/-! ## Basic string operations (Python `str` helpers over `List Char`) -/

/-- Token estimate from `app/summarizer.py` `count_tokens`: `len(text) // 4`. -/
def count_tokens (text : List Char) : Nat :=
  text.length / 4

/-- Python `s.split(sep)` for a two-character separator `[a, b]`,
mirroring `str.split`: non-overlapping, left-to-right, separator consumed,
empty pieces kept, `"".split(sep) == [""]`. -/
def split2 (a b : Char) : List Char → List (List Char)
  | [] => [[]]
  | [x] => [[x]]
  | x :: y :: xs =>
    if x = a ∧ y = b then
      [] :: split2 a b xs
    else
      (x :: (split2 a b (y :: xs)).headD []) :: (split2 a b (y :: xs)).tail

/-- Whether the two-character sequence `[a, b]` occurs inside `xs`. -/
def contains2 (a b : Char) : List Char → Bool
  | [] => false
  | [_] => false
  | x :: y :: xs => (decide (x = a ∧ y = b)) || contains2 a b (y :: xs)

/-- Python `s.split(sep)` for a one-character separator. -/
def splitc (sep : Char) : List Char → List (List Char)
  | [] => [[]]
  | c :: cs =>
    if c = sep then
      [] :: splitc sep cs
    else
      (c :: (splitc sep cs).headD []) :: (splitc sep cs).tail

/-- Python `s.strip()`: drop whitespace from both ends. -/
def stripChars (s : List Char) : List Char :=
  ((s.dropWhile Char.isWhitespace).reverse.dropWhile Char.isWhitespace).reverse

/-- Python truthiness of an optional string: `None` and `""` are falsy. -/
def pyTruthy : Option (List Char) → Bool
  | none => false
  | some s => !s.isEmpty

/-! ## Metrics calculator (`shared/pdf_processor.py`) -/

/-- A word character in the sense of the regex `\w` (ASCII scope):
alphanumeric or underscore. -/
def isWordChar (c : Char) : Bool :=
  c.isAlphanum || c = '_'

/-- Scanning automaton for `len(re.findall(r"\b\w+\b", text))`: walk the
text once, counting each time a word character is entered from a non-word
position.  `inWord` records whether the previous character was a word
character. -/
def findallCount : List Char → Bool → Nat
  | [], _ => 0
  | c :: cs, inWord =>
    if isWordChar c then
      (if inWord then 0 else 1) + findallCount cs true
    else
      findallCount cs false

/-- `calculate_text_metrics` from `shared/pdf_processor.py`: `(0, 0)` for
`None`/empty text, else `(word_count, character_length)` with the word
count given by the `\b\w+\b` findall and the character length by `len`. -/
def calculate_text_metrics : Option (List Char) → Nat × Nat
  | none => (0, 0)
  | some s => if s = [] then (0, 0) else (findallCount s false, s.length)

/-- Specification-side count of maximal runs of word characters: a run
begins at a word character whose predecessor is absent or non-word.
`runStartsAux prev cs` counts the run starts inside `cs` given the
character `prev` immediately before it. -/
def runStartsAux : Char → List Char → Nat
  | _, [] => 0
  | prev, c :: cs =>
    (if isWordChar c ∧ ¬ isWordChar prev then 1 else 0) + runStartsAux c cs

/-- Specification-side word count: the number of maximal runs of word
characters in the text. -/
def wordRuns : List Char → Nat
  | [] => 0
  | c :: cs => (if isWordChar c then 1 else 0) + runStartsAux c cs

/-! ## Chunking (`app/summarizer.py` `chunk_text`) -/

/-- `MAX_TOKENS_PER_CHUNK` from `app/summarizer.py`. -/
def MAX_TOKENS_PER_CHUNK : Nat := 8000

/-- `SUMMARY_MAX_TOKENS` from `app/summarizer.py`. -/
def SUMMARY_MAX_TOKENS : Nat := 500

/-- One iteration of the sentence loop inside `chunk_text`: state is
`(chunks so far, temp_chunk)`; `sentence` is the next piece of
`paragraph.split(". ")`. -/
def sentenceStep (maxTokens : Nat) (st : List (List Char) × List Char)
    (sentence : List Char) : List (List Char) × List Char :=
  let tempSentence :=
    if st.2 = [] then sentence else st.2 ++ ('.' :: ' ' :: []) ++ sentence
  if count_tokens tempSentence ≤ maxTokens then
    (st.1, tempSentence)
  else
    if st.2 = [] then (st.1, sentence) else (st.1 ++ [st.2], sentence)

/-- One iteration of the paragraph loop inside `chunk_text`: state is
`(chunks so far, current_chunk)`; `paragraph` is the next piece of
`text.split("\n\n")`. -/
def paragraphStep (maxTokens : Nat) (st : List (List Char) × List Char)
    (paragraph : List Char) : List (List Char) × List Char :=
  let potential :=
    if st.2 = [] then paragraph
    else st.2 ++ ('\n' :: '\n' :: []) ++ paragraph
  if count_tokens potential ≤ maxTokens then
    (st.1, potential)
  else
    let chunks1 := if st.2 = [] then st.1 else st.1 ++ [st.2]
    if maxTokens < count_tokens paragraph then
      let folded := (split2 '.' ' ' paragraph).foldl (sentenceStep maxTokens) (chunks1, [])
      (if folded.2 = [] then folded.1 else folded.1 ++ [folded.2], [])
    else
      (chunks1, paragraph)

/-- `chunk_text` from `app/summarizer.py`: text within the token budget is
returned as a single chunk; otherwise split on paragraph boundaries
(`"\n\n"`) with greedy accumulation, and any paragraph that alone exceeds
the budget is split on sentence boundaries (`". "`) with the same greedy
accumulation. -/
def chunk_text (text : List Char) (maxTokens : Nat := MAX_TOKENS_PER_CHUNK) :
    List (List Char) :=
  if count_tokens text ≤ maxTokens then [text]
  else
    let folded := (split2 '\n' '\n' text).foldl (paragraphStep maxTokens) ([], [])
    if folded.2 = [] then folded.1 else folded.1 ++ [folded.2]

/-! ## Summarization (`app/summarizer.py`) -/

/-- LLM configuration as resolved by `get_llm_config`. -/
structure LlmConfig where
  base_url : List Char
  api_key : List Char
  model : List Char

/-- Outcome of one chat-completion HTTP call: either the returned message
content, or any raised error (connection, HTTP status, JSON shape). -/
inductive ApiOutcome where
  | ok (content : List Char)
  | apiError (msg : List Char)
deriving DecidableEq

/-- `summarize_chunk` from `app/summarizer.py`, with the external call's
outcome made explicit.  With no API key configured, or on any error from
the call, it degrades to the first 500 characters of the chunk followed by
`"..."` (the whole chunk if it is at most 500 characters); on success it
returns the stripped message content. -/
def summarize_chunk (config : LlmConfig) (api : ApiOutcome) (chunk : List Char) :
    List Char :=
  if config.api_key = [] then
    if 500 < chunk.length then chunk.take 500 ++ ('.' :: '.' :: '.' :: []) else chunk
  else
    match api with
    | .ok content => stripChars content
    | .apiError _ =>
      if 500 < chunk.length then chunk.take 500 ++ ('.' :: '.' :: '.' :: []) else chunk

/-- `summarize_document` from `app/summarizer.py`, with the external
summarization modelled by `oracle` (the value `summarize_chunk` produces
for a given argument) and with the list of arguments passed to
`summarize_chunk`, in call order, returned alongside the result.  `none`
stands for Python `None` (`if not text` is also true for `None`). -/
def summarize_document (oracle : List Char → List Char) :
    Option (List Char) → List Char × List (List Char)
  | none => ([], [])
  | some text =>
    if text.all Char.isWhitespace then ([], [])
    else if count_tokens text ≤ MAX_TOKENS_PER_CHUNK then (oracle text, [text])
    else
      let chunks := chunk_text text MAX_TOKENS_PER_CHUNK
      let folded := chunks.foldl
        (fun acc c => (acc.1 ++ [oracle c], acc.2 ++ [c])) ([], [])
      let combined := List.intercalate ('\n' :: '\n' :: []) folded.1
      if MAX_TOKENS_PER_CHUNK < count_tokens combined then
        (oracle combined, folded.2 ++ [combined])
      else
        (combined, folded.2)

/-- Specification-side description of the chunked path of
`summarize_document` (spec 4.5 points 5-6): one summarization per chunk,
in chunk order; chunk summaries joined with a blank-line separator in
order; if the joined result still exceeds the budget, exactly one further
collapse pass whose output is returned directly. -/
def spec_chunked_summary (oracle : List Char → List Char) (text : List Char) :
    List Char × List (List Char) :=
  let chunks := chunk_text text MAX_TOKENS_PER_CHUNK
  let summaries := chunks.map oracle
  let combined := List.intercalate ('\n' :: '\n' :: []) summaries
  if MAX_TOKENS_PER_CHUNK < count_tokens combined then
    (oracle combined, chunks ++ [combined])
  else
    (combined, chunks)

/-! ## Record store (`app/database.py`) -/

/-- One row of the `pdf_extracts` table. -/
structure Record where
  id : Nat
  filename : List Char
  extracted_text : List Char
  word_count : Nat
  character_length : Nat
  summary : Option (List Char)
  md5_hash : Option (List Char)
  created_timestamp : Nat
deriving DecidableEq

/-- The SQLite store: its rows, plus a `broken` flag meaning every
operation on the connection raises. -/
structure Db where
  broken : Bool
  records : List Record
deriving DecidableEq

/-- `AUTOINCREMENT` id assignment: one more than the largest id used. -/
def nextId (records : List Record) : Nat :=
  records.foldl (fun m r => max m r.id) 0 + 1

/-- `check_duplicate_by_hash` from `app/database.py`: `SELECT` on
`md5_hash = ?`; any raised error is caught and reported as `False`. -/
def check_duplicate_by_hash (db : Db) (md5_hash : List Char) : Bool :=
  if db.broken then false
  else db.records.any (fun r => r.md5_hash = some md5_hash)

/-- `save_extracted_text` from `app/database.py`: `INSERT` of one row;
returns `False` if the connection raises, including the
`IntegrityError` raised by the unique index `idx_md5_hash` when a row with
the same non-null hash already exists (SQLite treats NULLs as distinct). -/
def save_extracted_text (db : Db) (filename extracted_text : List Char)
    (word_count character_length : Nat)
    (summary md5_hash : Option (List Char)) (ts : Nat) : Bool × Db :=
  if db.broken then (false, db)
  else
    match md5_hash with
    | some h =>
      if db.records.any (fun r => r.md5_hash = some h) then (false, db)
      else
        (true, { db with records := db.records ++
          [⟨nextId db.records, filename, extracted_text, word_count,
            character_length, summary, some h, ts⟩] })
    | none =>
      (true, { db with records := db.records ++
        [⟨nextId db.records, filename, extracted_text, word_count,
          character_length, summary, none, ts⟩] })

/-- `update_record_summary` from `app/database.py`: `UPDATE ... SET
summary = ? WHERE id = ?`; returns whether a row was affected. -/
def update_record_summary (db : Db) (record_id : Nat) (summary : List Char) :
    Bool × Db :=
  if db.broken then (false, db)
  else
    (db.records.any (fun r => r.id = record_id),
     { db with records := db.records.map (fun r =>
         if r.id = record_id then { r with summary := some summary } else r) })

/-! ## Backend endpoint (`app/main.py` `process_pdf`) -/

/-- `PDFProcessRequest` from `app/models.py`. -/
structure PDFProcessRequest where
  filename : List Char
  extracted_text : List Char
  word_count : Nat
  character_length : Nat
  generate_summary : Bool
  md5_hash : Option (List Char)
deriving DecidableEq

/-- Calls the backend endpoint makes against its collaborators. -/
inductive BackCall where
  | dupCheckCall
  | summarizeCall
  | saveCall
deriving DecidableEq

/-- Response of the `/process-pdf` endpoint: a JSON body, or an HTTP
error status with detail. -/
inductive ApiResponse where
  | ok (success skipped : Bool) (message : List Char) (summary : Option (List Char))
  | httpError (code : Nat) (detail : List Char)
deriving DecidableEq

/-- The `skipped` field an HTTP client reads off a response (`False`
when absent or on error). -/
def responseSkipped : ApiResponse → Bool
  | .ok _ skipped _ _ => skipped
  | .httpError _ _ => false

/-- The duplicate-skip message built by both the backend and frontend. -/
def dupMessage (filename : List Char) : List Char :=
  "File ".data ++ filename ++ " already exists (duplicate)".data

/-- The `summary` local of `process_pdf`: computed only when requested
and the request carries extracted text (`if request.generate_summary and
request.extracted_text`); any error raised by `summarize_document` is
caught and leaves the summary as `None`. -/
def computed_summary (summarizer : List Char → Except (List Char) (List Char))
    (req : PDFProcessRequest) : Option (List Char) :=
  if req.generate_summary && !req.extracted_text.isEmpty then
    match summarizer req.extracted_text with
    | .ok s => some s
    | .error _ => none
  else none

/-- Body of `process_pdf` after the duplicate gate: optional
summarization, then the save; a failed save surfaces as HTTP 500 (the
store state and the call list are the same in both outcomes). -/
def process_pdf_rest (db : Db)
    (summarizer : List Char → Except (List Char) (List Char)) (ts : Nat)
    (req : PDFProcessRequest) (calls0 : List BackCall) :
    ApiResponse × Db × List BackCall :=
  let summary := computed_summary summarizer req
  let saved := save_extracted_text db req.filename req.extracted_text
    req.word_count req.character_length summary req.md5_hash ts
  (if saved.1 then
     .ok true false ("Successfully processed ".data ++ req.filename)
       (if pyTruthy summary then summary else none)
   else .httpError 500 "Failed to save to database".data,
   saved.2,
   calls0 ++ (if req.generate_summary && !req.extracted_text.isEmpty then
     [BackCall.summarizeCall] else []) ++ [BackCall.saveCall])

/-- `process_pdf` from `app/main.py`: duplicate gate only when the
request carries a (truthy) hash, then summarize-and-save.  The third
component records the collaborator calls made, in order. -/
def process_pdf (db : Db)
    (summarizer : List Char → Except (List Char) (List Char)) (ts : Nat)
    (req : PDFProcessRequest) : ApiResponse × Db × List BackCall :=
  if pyTruthy req.md5_hash then
    if check_duplicate_by_hash db (req.md5_hash.getD []) then
      (.ok true true (dupMessage req.filename) none, db, [BackCall.dupCheckCall])
    else
      process_pdf_rest db summarizer ts req [BackCall.dupCheckCall]
  else
    process_pdf_rest db summarizer ts req []

/-! ## Frontend (`frontend/api_client.py`, `frontend/data_processing.py`) -/

/-- `check_duplicate_hash` from `frontend/api_client.py`: reads
`is_duplicate` from the backend's JSON (`False` when absent); any raised
error (connection, non-2xx status) yields `False`. -/
def check_duplicate_hash (response : Except (List Char) (Option Bool)) : Bool :=
  match response with
  | .error _ => false
  | .ok r => r.getD false

/-- Result dictionary of one frontend processing attempt, as consumed by
the batch loop (`result.get("success")`, `result.get("skipped")`). -/
structure PResult where
  success : Bool
  skipped : Bool := false
  message : Option (List Char) := none
  error : Option (List Char) := none
deriving DecidableEq

/-- Calls `process_single_pdf` makes against its collaborators. -/
inductive FrontCall where
  | hashCall
  | dupCheckCall
  | extractCall
  | metricsCall
  | saveCall
deriving DecidableEq

/-- Collaborator outcomes seen by one `process_single_pdf` run.  `σ` is
the state owned by the backend (instantiated with `Unit` when the backend
is abstract, and with `Db` for the end-to-end pipeline);
`save` is `save_extracted_text_to_backend` applied to
`(filename, text, word_count, character_length, generate_summary, hash)`. -/
structure PdfEnv (σ : Type) where
  md5Hash : Except (List Char) (List Char)
  dupCheck : List Char → σ → Bool
  extractText : Except (List Char) (List Char)
  save : List Char → List Char → Nat → Nat → Bool → List Char → σ → PResult × σ

/-- `process_single_pdf` from `frontend/data_processing.py`: hash, stop
with a skip result on a detected duplicate, else extract, compute
metrics, save; any raised error becomes `{success: False, error}`.  The
trace lists the collaborator calls made, in order. -/
def process_single_pdf {σ : Type} (env : PdfEnv σ) (state : σ)
    (filename : List Char) (generate_summary : Bool) :
    PResult × σ × List FrontCall :=
  match env.md5Hash with
  | .error e =>
    ({ success := false, error := some e }, state, [FrontCall.hashCall])
  | .ok h =>
    if env.dupCheck h state then
      ({ success := true, skipped := true, message := some (dupMessage filename) },
       state, [FrontCall.hashCall, FrontCall.dupCheckCall])
    else
      match env.extractText with
      | .error e =>
        ({ success := false, error := some e }, state,
         [FrontCall.hashCall, FrontCall.dupCheckCall, FrontCall.extractCall])
      | .ok text =>
        let m := calculate_text_metrics (some text)
        let saved := env.save filename text m.1 m.2 generate_summary h state
        (saved.1, saved.2,
         [FrontCall.hashCall, FrontCall.dupCheckCall, FrontCall.extractCall,
          FrontCall.metricsCall, FrontCall.saveCall])

/-- `pdf_file.split("/")[-1].split("\\")[-1]` from `process_pdf_batch`. -/
def pathBasename (p : List Char) : List Char :=
  (splitc '\\' ((splitc '/' p).getLastD [])).getLastD []

/-- Aggregate result of `process_pdf_batch`. -/
structure BatchResult (σ : Type) where
  successful : Nat
  skipped : Nat
  failed : Nat
  results : List (List Char × PResult)
  finalState : σ

/-- One iteration of the `process_pdf_batch` loop: classify the file's
result and append it to the ordered result list. -/
def batchStep {σ : Type} (envOf : List Char → PdfEnv σ) (generate_summary : Bool)
    (acc : Nat × Nat × Nat × List (List Char × PResult) × σ)
    (pdf_file : List Char) : Nat × Nat × Nat × List (List Char × PResult) × σ :=
  let filename := pathBasename pdf_file
  let out := process_single_pdf (envOf pdf_file) acc.2.2.2.2 filename generate_summary
  let entry := [(filename, out.1)]
  if out.1.success then
    if out.1.skipped then
      (acc.1, acc.2.1 + 1, acc.2.2.1, acc.2.2.2.1 ++ entry, out.2.1)
    else
      (acc.1 + 1, acc.2.1, acc.2.2.1, acc.2.2.2.1 ++ entry, out.2.1)
  else
    (acc.1, acc.2.1, acc.2.2.1 + 1, acc.2.2.2.1 ++ entry, out.2.1)

/-- `process_pdf_batch` from `frontend/data_processing.py`: sequential
loop over the input files, counting successful / skipped / failed and
collecting one `{filename, result}` entry per file in input order. -/
def process_pdf_batch {σ : Type} (envOf : List Char → PdfEnv σ)
    (pdf_files : List (List Char)) (generate_summary : Bool) (state0 : σ) :
    BatchResult σ :=
  let acc := pdf_files.foldl (batchStep envOf generate_summary) (0, 0, 0, [], state0)
  ⟨acc.1, acc.2.1, acc.2.2.1, acc.2.2.2.1, acc.2.2.2.2⟩

/-! ## End-to-end composition (frontend calling the backend in-process) -/

/-- Translation of the backend HTTP response into the dictionary
`save_extracted_text_to_backend` returns: a 2xx JSON body passes through,
`raise_for_status` on an error status is caught and becomes
`{success: False, error}`. -/
def responseToDict : ApiResponse → PResult
  | .ok s k m _ => { success := s, skipped := k, message := some m }
  | .httpError _ d => { success := false, error := some d }

/-- The frontend environment whose save call runs the backend
`process_pdf` against the store `Db`; `dup` models the frontend's
pre-check (`check_duplicate_hash`) against the backend. -/
def backendEnv (summarizer : List Char → Except (List Char) (List Char))
    (ts : Nat) (hashOutcome extractOutcome : Except (List Char) (List Char))
    (dup : List Char → Db → Bool) : PdfEnv Db :=
  { md5Hash := hashOutcome,
    dupCheck := dup,
    extractText := extractOutcome,
    save := fun fn text wc cl g md5 db =>
      let out := process_pdf db summarizer ts ⟨fn, text, wc, cl, g, some md5⟩
      (responseToDict out.1, out.2.1) }

/-- One frontend file-processing run composed with the real backend:
`process_single_pdf` where the save is the backend `process_pdf`
persisting into `Db`. -/
def pipeline_process_single (db : Db)
    (summarizer : List Char → Except (List Char) (List Char)) (ts : Nat)
    (hashOutcome extractOutcome : Except (List Char) (List Char))
    (dup : List Char → Db → Bool) (filename : List Char)
    (generate_summary : Bool) : PResult × Db × List FrontCall :=
  process_single_pdf (backendEnv summarizer ts hashOutcome extractOutcome dup)
    db filename generate_summary

/-- The per-record fields other than `summary`, used to state that
summary updates edit nothing else. -/
def recordCore (r : Record) :
    Nat × List Char × List Char × Nat × Nat × Option (List Char) × Nat :=
  (r.id, r.filename, r.extracted_text, r.word_count, r.character_length,
   r.md5_hash, r.created_timestamp)

/-- A chunk is acceptable for budget `max` when it is within the budget
or is an indivisible sentence (no `". "` boundary to split at). -/
def chunkOk (max : Nat) (c : List Char) : Prop :=
  count_tokens c ≤ max ∨ contains2 '.' ' ' c = false

/-- A pathologically long indivisible sentence: no paragraph boundary and
no sentence boundary, estimated at 8001 tokens (over the default budget). -/
def oversizedSentence : List Char := List.replicate 32004 'a'

/-! ## Lemmas about splitting -/

theorem split2_ne_nil (a b : Char) : (xs : List Char) → split2 a b xs ≠ []
  | [] => by simp [split2]
  | [x] => by simp [split2]
  | x :: y :: xs => by
    by_cases h : x = a ∧ y = b <;> simp [split2, h]

theorem split2_head_shape (a b : Char) (y : Char) (xs : List Char) :
    (split2 a b (y :: xs)).headD [] = [] ∨
      ∃ q, (split2 a b (y :: xs)).headD [] = y :: q := by
  cases xs with
  | nil => exact Or.inr ⟨[], rfl⟩
  | cons z zs =>
    by_cases h : y = a ∧ z = b
    · left
      simp [split2, h]
    · right
      refine ⟨(split2 a b (z :: zs)).headD [], ?_⟩
      simp [split2, h]

theorem split2_pieces (a b : Char) :
    (xs : List Char) → ∀ p ∈ split2 a b xs, contains2 a b p = false
  | [] => by simp [split2, contains2]
  | [x] => by simp [split2, contains2]
  | x :: y :: xs => by
    by_cases h : x = a ∧ y = b
    · intro p hp
      simp only [split2, if_pos h, List.mem_cons] at hp
      rcases hp with rfl | hp
      · rfl
      · exact split2_pieces a b xs p hp
    · intro p hp
      simp only [split2, if_neg h, List.mem_cons] at hp
      rcases hp with rfl | hp
      · rcases split2_head_shape a b y xs with he | ⟨q, he⟩
        · rw [he]; rfl
        · rw [he]
          have hne := split2_ne_nil a b (y :: xs)
          have hq : (y :: q) ∈ split2 a b (y :: xs) := by
            rcases hs : split2 a b (y :: xs) with _ | ⟨p0, ps⟩
            · exact absurd hs hne
            · have hp0 : p0 = y :: q := by rw [hs] at he; simpa using he
              rw [hp0]
              exact List.mem_cons_self _ _
          have hc := split2_pieces a b (y :: xs) (y :: q) hq
          simp [contains2, h, hc]
      · exact split2_pieces a b (y :: xs) p (List.mem_of_mem_tail hp)

theorem no_sep_split2 (a b : Char) :
    (xs : List Char) → contains2 a b xs = false → split2 a b xs = [xs]
  | [] => by simp [split2]
  | [x] => by simp [split2]
  | x :: y :: xs => by
    intro h
    simp only [contains2, Bool.or_eq_false_iff, decide_eq_false_iff_not] at h
    simp [split2, h.1, no_sep_split2 a b (y :: xs) h.2]

theorem contains2_of_ne (a b : Char) :
    (xs : List Char) → (∀ x ∈ xs, x ≠ a) → contains2 a b xs = false
  | [] => fun _ => rfl
  | [_] => fun _ => rfl
  | x :: y :: xs => fun h => by
    have hx : x ≠ a := h x (List.mem_cons_self _ _)
    have hrest : contains2 a b (y :: xs) = false :=
      contains2_of_ne a b (y :: xs) (fun z hz => h z (List.mem_cons_of_mem _ hz))
    simp [contains2, hrest, hx]

/-! ## Chunking invariants -/

theorem sentenceStep_def (max : Nat) (chunks : List (List Char)) (temp s : List Char) :
    sentenceStep max (chunks, temp) s =
      if count_tokens (if temp = [] then s else temp ++ ('.' :: ' ' :: []) ++ s) ≤ max then
        (chunks, if temp = [] then s else temp ++ ('.' :: ' ' :: []) ++ s)
      else if temp = [] then (chunks, s) else (chunks ++ [temp], s) := rfl

theorem paragraphStep_def (max : Nat) (chunks : List (List Char)) (cur p : List Char) :
    paragraphStep max (chunks, cur) p =
      if count_tokens (if cur = [] then p else cur ++ ('\n' :: '\n' :: []) ++ p) ≤ max then
        (chunks, if cur = [] then p else cur ++ ('\n' :: '\n' :: []) ++ p)
      else if max < count_tokens p then
        (if ((split2 '.' ' ' p).foldl (sentenceStep max)
              ((if cur = [] then chunks else chunks ++ [cur]), [])).2 = [] then
           ((split2 '.' ' ' p).foldl (sentenceStep max)
              ((if cur = [] then chunks else chunks ++ [cur]), [])).1
         else
           ((split2 '.' ' ' p).foldl (sentenceStep max)
              ((if cur = [] then chunks else chunks ++ [cur]), [])).1 ++
             [((split2 '.' ' ' p).foldl (sentenceStep max)
              ((if cur = [] then chunks else chunks ++ [cur]), [])).2],
         ([] : List Char))
      else ((if cur = [] then chunks else chunks ++ [cur]), p) := rfl

theorem sentence_fold_ok (max : Nat) (sentences : List (List Char)) :
    ∀ (chunks : List (List Char)) (temp : List Char),
    (∀ s ∈ sentences, contains2 '.' ' ' s = false) →
    (∀ c ∈ chunks, chunkOk max c) → chunkOk max temp →
    (∀ c ∈ (sentences.foldl (sentenceStep max) (chunks, temp)).1, chunkOk max c) ∧
      chunkOk max (sentences.foldl (sentenceStep max) (chunks, temp)).2 := by
  induction sentences with
  | nil =>
    intro chunks temp _ hc ht
    exact ⟨hc, ht⟩
  | cons s rest ih =>
    intro chunks temp hs hc ht
    have hsrest : ∀ x ∈ rest, contains2 '.' ' ' x = false :=
      fun x hx => hs x (List.mem_cons_of_mem _ hx)
    have hshead : contains2 '.' ' ' s = false := hs s (List.mem_cons_self _ _)
    rw [List.foldl_cons, sentenceStep_def]
    by_cases h1 : count_tokens (if temp = [] then s else temp ++ ('.' :: ' ' :: []) ++ s) ≤ max
    · rw [if_pos h1]
      exact ih _ _ hsrest hc (Or.inl h1)
    · rw [if_neg h1]
      by_cases h2 : temp = []
      · rw [if_pos h2]
        exact ih _ _ hsrest hc (Or.inr hshead)
      · rw [if_neg h2]
        apply ih _ _ hsrest _ (Or.inr hshead)
        intro c hcmem
        rcases List.mem_append.mp hcmem with hA | hB
        · exact hc c hA
        · rw [List.mem_singleton] at hB
          subst hB
          exact ht

theorem paragraph_fold_ok (max : Nat) (paras : List (List Char)) :
    ∀ (chunks : List (List Char)) (cur : List Char),
    (∀ c ∈ chunks, chunkOk max c) → count_tokens cur ≤ max →
    (∀ c ∈ (paras.foldl (paragraphStep max) (chunks, cur)).1, chunkOk max c) ∧
      count_tokens (paras.foldl (paragraphStep max) (chunks, cur)).2 ≤ max := by
  induction paras with
  | nil =>
    intro chunks cur hc hcur
    exact ⟨hc, hcur⟩
  | cons p rest ih =>
    intro chunks cur hc hcur
    rw [List.foldl_cons, paragraphStep_def]
    by_cases h1 :
        count_tokens (if cur = [] then p else cur ++ ('\n' :: '\n' :: []) ++ p) ≤ max
    · rw [if_pos h1]
      exact ih _ _ hc h1
    · rw [if_neg h1]
      have hchunks1 : ∀ c ∈ (if cur = [] then chunks else chunks ++ [cur]),
          chunkOk max c := by
        intro c hcmem
        by_cases hce : cur = []
        · rw [if_pos hce] at hcmem
          exact hc c hcmem
        · rw [if_neg hce] at hcmem
          rcases List.mem_append.mp hcmem with hA | hB
          · exact hc c hA
          · rw [List.mem_singleton] at hB
            subst hB
            exact Or.inl hcur
      by_cases h2 : max < count_tokens p
      · rw [if_pos h2]
        have hfold := sentence_fold_ok max (split2 '.' ' ' p)
          (if cur = [] then chunks else chunks ++ [cur]) []
          (split2_pieces '.' ' ' p) hchunks1 (Or.inl (Nat.zero_le _))
        by_cases h3 : ((split2 '.' ' ' p).foldl (sentenceStep max)
            ((if cur = [] then chunks else chunks ++ [cur]), [])).2 = []
        · rw [if_pos h3]
          exact ih _ _ hfold.1 (Nat.zero_le _)
        · rw [if_neg h3]
          apply ih _ _ _ (Nat.zero_le _)
          intro c hcmem
          rcases List.mem_append.mp hcmem with hA | hB
          · exact hfold.1 c hA
          · rw [List.mem_singleton] at hB
            subst hB
            exact hfold.2
      · rw [if_neg h2]
        exact ih _ _ hchunks1 (Nat.le_of_not_lt h2)

theorem chunk_text_def (text : List Char) (max : Nat) :
    chunk_text text max =
      if count_tokens text ≤ max then [text]
      else if ((split2 '\n' '\n' text).foldl (paragraphStep max) ([], [])).2 = [] then
        ((split2 '\n' '\n' text).foldl (paragraphStep max) ([], [])).1
      else
        ((split2 '\n' '\n' text).foldl (paragraphStep max) ([], [])).1 ++
          [((split2 '\n' '\n' text).foldl (paragraphStep max) ([], [])).2] := rfl

theorem oversized_not_ws : oversizedSentence.all Char.isWhitespace = false := by
  show (List.replicate (32003 + 1) 'a').all Char.isWhitespace = false
  rw [List.replicate_succ, List.all_cons]
  have hws : Char.isWhitespace 'a' = false := by decide
  rw [hws, Bool.false_and]

theorem oversized_tokens : count_tokens oversizedSentence = 8001 := by
  rw [count_tokens, oversizedSentence, List.length_replicate]

theorem ne_nil_of_tokens_gt (s : List Char) (max : Nat)
    (h : ¬ count_tokens s ≤ max) : s ≠ [] := by
  intro hn
  subst hn
  exact h (Nat.zero_le _)

theorem count_tokens_le_of_length_le {a b : List Char} (h : a.length ≤ b.length) :
    count_tokens a ≤ count_tokens b :=
  Nat.div_le_div_right h

theorem split2_piece_length (a b : Char) :
    (xs : List Char) → ∀ p ∈ split2 a b xs, p.length ≤ xs.length
  | [] => by simp [split2]
  | [x] => by simp [split2]
  | x :: y :: xs => by
    by_cases h : x = a ∧ y = b
    · intro p hp
      simp only [split2, if_pos h, List.mem_cons] at hp
      rcases hp with rfl | hp
      · simp
      · have hrec := split2_piece_length a b xs p hp
        simp only [List.length_cons]
        omega
    · intro p hp
      simp only [split2, if_neg h, List.mem_cons] at hp
      rcases hp with rfl | hp
      · have hne := split2_ne_nil a b (y :: xs)
        have hmem : (split2 a b (y :: xs)).headD [] ∈ split2 a b (y :: xs) := by
          rcases hs : split2 a b (y :: xs) with _ | ⟨p0, ps⟩
          · exact absurd hs hne
          · simp
        have hrec := split2_piece_length a b (y :: xs) _ hmem
        simp only [List.length_cons] at *
        omega
      · have hrec := split2_piece_length a b (y :: xs) p (List.mem_of_mem_tail hp)
        simp only [List.length_cons] at *
        omega

/-! ## Chunk content preservation: oversized sentences are emitted whole -/

theorem sentence_fold_mono (max : Nat) (sentences : List (List Char)) :
    ∀ (chunks : List (List Char)) (temp c : List Char), c ∈ chunks →
      c ∈ (sentences.foldl (sentenceStep max) (chunks, temp)).1 := by
  induction sentences with
  | nil =>
    intro chunks temp c hc
    exact hc
  | cons s rest ih =>
    intro chunks temp c hc
    rw [List.foldl_cons, sentenceStep_def]
    by_cases h1 : count_tokens (if temp = [] then s else temp ++ ('.' :: ' ' :: []) ++ s) ≤ max
    · rw [if_pos h1]
      exact ih _ _ c hc
    · rw [if_neg h1]
      by_cases h2 : temp = []
      · rw [if_pos h2]
        exact ih _ _ c hc
      · rw [if_neg h2]
        exact ih _ _ c (List.mem_append.mpr (Or.inl hc))

theorem sentence_fold_keeps_oversized_temp (max : Nat) (sentences : List (List Char))
    (chunks : List (List Char)) (temp : List Char)
    (ht : ¬ count_tokens temp ≤ max) :
    temp ∈ (sentences.foldl (sentenceStep max) (chunks, temp)).1 ∨
      (sentences.foldl (sentenceStep max) (chunks, temp)).2 = temp := by
  cases sentences with
  | nil =>
    right
    rfl
  | cons s rest =>
    have htne : temp ≠ [] := ne_nil_of_tokens_gt temp max ht
    rw [List.foldl_cons, sentenceStep_def]
    have h1 : ¬ count_tokens (if temp = [] then s else temp ++ ('.' :: ' ' :: []) ++ s) ≤ max := by
      rw [if_neg htne]
      intro hcon
      have hlen : temp.length ≤ (temp ++ ('.' :: ' ' :: []) ++ s).length := by
        rw [List.length_append, List.length_append]
        omega
      exact ht (le_trans (count_tokens_le_of_length_le hlen) hcon)
    rw [if_neg h1, if_neg htne]
    left
    exact sentence_fold_mono max rest _ _ temp
      (List.mem_append.mpr (Or.inr (List.mem_singleton.mpr rfl)))

theorem sentence_fold_emits_oversized (max : Nat) (sentences : List (List Char)) :
    ∀ (chunks : List (List Char)) (temp s : List Char),
      s ∈ sentences → ¬ count_tokens s ≤ max →
      s ∈ (sentences.foldl (sentenceStep max) (chunks, temp)).1 ∨
        (sentences.foldl (sentenceStep max) (chunks, temp)).2 = s := by
  induction sentences with
  | nil =>
    intro _ _ s hmem
    exact absurd hmem (List.not_mem_nil s)
  | cons x rest ih =>
    intro chunks temp s hmem hs
    rcases List.mem_cons.mp hmem with rfl | hmem'
    · rw [List.foldl_cons, sentenceStep_def]
      have h1 : ¬ count_tokens (if temp = [] then s else temp ++ ('.' :: ' ' :: []) ++ s) ≤ max := by
        by_cases h2 : temp = []
        · rw [if_pos h2]
          exact hs
        · rw [if_neg h2]
          intro hcon
          have hlen : s.length ≤ (temp ++ ('.' :: ' ' :: []) ++ s).length := by
            rw [List.length_append, List.length_append]
            omega
          exact hs (le_trans (count_tokens_le_of_length_le hlen) hcon)
      rw [if_neg h1]
      by_cases h2 : temp = []
      · rw [if_pos h2]
        exact sentence_fold_keeps_oversized_temp max rest _ s hs
      · rw [if_neg h2]
        exact sentence_fold_keeps_oversized_temp max rest _ s hs
    · rw [List.foldl_cons]
      exact ih (sentenceStep max (chunks, temp) x).1
        (sentenceStep max (chunks, temp) x).2 s hmem' hs

theorem paragraph_fold_mono (max : Nat) (paras : List (List Char)) :
    ∀ (chunks : List (List Char)) (cur c : List Char), c ∈ chunks →
      c ∈ (paras.foldl (paragraphStep max) (chunks, cur)).1 := by
  induction paras with
  | nil =>
    intro _ _ c hc
    exact hc
  | cons p rest ih =>
    intro chunks cur c hc
    rw [List.foldl_cons, paragraphStep_def]
    by_cases h1 : count_tokens (if cur = [] then p else cur ++ ('\n' :: '\n' :: []) ++ p) ≤ max
    · rw [if_pos h1]
      exact ih _ _ c hc
    · rw [if_neg h1]
      have hc1 : c ∈ (if cur = [] then chunks else chunks ++ [cur]) := by
        by_cases h2 : cur = []
        · rw [if_pos h2]
          exact hc
        · rw [if_neg h2]
          exact List.mem_append.mpr (Or.inl hc)
      by_cases h3 : max < count_tokens p
      · rw [if_pos h3]
        have hcf : c ∈ ((split2 '.' ' ' p).foldl (sentenceStep max)
            ((if cur = [] then chunks else chunks ++ [cur]), [])).1 :=
          sentence_fold_mono max _ _ _ c hc1
        by_cases h4 : ((split2 '.' ' ' p).foldl (sentenceStep max)
            ((if cur = [] then chunks else chunks ++ [cur]), [])).2 = []
        · rw [if_pos h4]
          exact ih _ _ c hcf
        · rw [if_neg h4]
          exact ih _ _ c (List.mem_append.mpr (Or.inl hcf))
      · rw [if_neg h3]
        exact ih _ _ c hc1

theorem paragraph_fold_emits_oversized (max : Nat) (paras : List (List Char)) :
    ∀ (chunks : List (List Char)) (cur : List Char) (p s : List Char),
      p ∈ paras → ¬ count_tokens p ≤ max →
      s ∈ split2 '.' ' ' p → ¬ count_tokens s ≤ max →
      s ∈ (paras.foldl (paragraphStep max) (chunks, cur)).1 := by
  induction paras with
  | nil =>
    intro _ _ p _ hmem
    exact absurd hmem (List.not_mem_nil p)
  | cons q rest ih =>
    intro chunks cur p s hmem hp hsmem hs
    rcases List.mem_cons.mp hmem with rfl | hmem'
    · rw [List.foldl_cons, paragraphStep_def]
      have h1 : ¬ count_tokens (if cur = [] then p else cur ++ ('\n' :: '\n' :: []) ++ p) ≤ max := by
        by_cases h2 : cur = []
        · rw [if_pos h2]
          exact hp
        · rw [if_neg h2]
          intro hcon
          have hlen : p.length ≤ (cur ++ ('\n' :: '\n' :: []) ++ p).length := by
            rw [List.length_append, List.length_append]
            omega
          exact hp (le_trans (count_tokens_le_of_length_le hlen) hcon)
      rw [if_neg h1, if_pos (not_le.mp hp)]
      rcases sentence_fold_emits_oversized max (split2 '.' ' ' p)
        (if cur = [] then chunks else chunks ++ [cur]) [] s hsmem hs with hA | hB
      · by_cases h4 : ((split2 '.' ' ' p).foldl (sentenceStep max)
            ((if cur = [] then chunks else chunks ++ [cur]), [])).2 = []
        · rw [if_pos h4]
          exact paragraph_fold_mono max rest _ _ s hA
        · rw [if_neg h4]
          exact paragraph_fold_mono max rest _ _ s (List.mem_append.mpr (Or.inl hA))
      · have hsne : s ≠ [] := ne_nil_of_tokens_gt s max hs
        have h4 : ¬ ((split2 '.' ' ' p).foldl (sentenceStep max)
            ((if cur = [] then chunks else chunks ++ [cur]), [])).2 = [] := by
          rw [hB]
          exact hsne
        rw [if_neg h4]
        refine paragraph_fold_mono max rest _ _ s (List.mem_append.mpr (Or.inr ?_))
        rw [hB]
        exact List.mem_singleton.mpr rfl
    · rw [List.foldl_cons]
      exact ih (paragraphStep max (chunks, cur) q).1
        (paragraphStep max (chunks, cur) q).2 p s hmem' hp hsmem hs

theorem chunk_text_single_sentence (text : List Char) (max : Nat)
    (h1 : contains2 '\n' '\n' text = false) (h2 : contains2 '.' ' ' text = false)
    (h3 : ¬ count_tokens text ≤ max) :
    chunk_text text max = [text] := by
  have htext : text ≠ [] := ne_nil_of_tokens_gt text max h3
  have e1 := no_sep_split2 '\n' '\n' text h1
  have e2 := no_sep_split2 '.' ' ' text h2
  rw [chunk_text_def, if_neg h3, e1, List.foldl_cons, List.foldl_nil, paragraphStep_def]
  have hif1 : (if ([] : List Char) = [] then text
      else ([] : List Char) ++ ('\n' :: '\n' :: []) ++ text) = text := if_pos rfl
  rw [hif1, if_neg h3, if_pos (not_le.mp h3), e2]
  have hif2 : (if ([] : List Char) = [] then ([] : List (List Char))
      else ([] : List (List Char)) ++ [([] : List Char)]) = [] := if_pos rfl
  rw [hif2, List.foldl_cons, List.foldl_nil, sentenceStep_def]
  have hif3 : (if ([] : List Char) = [] then text
      else ([] : List Char) ++ ('.' :: ' ' :: []) ++ text) = text := if_pos rfl
  rw [hif3, if_neg h3, if_pos (rfl : ([] : List Char) = [])]
  simp [htext]

/-- C3 (amended): text whose estimated token count is within the budget
comes back as exactly one chunk equal to the input; every chunk produced
for longer text is within the budget unless it is an indivisible sentence
(it contains no `". "` boundary); an oversized indivisible sentence is
never truncated or dropped: every over-budget sentence obtained from the
paragraph/sentence splitting appears verbatim among the chunks, and a
text that is one single oversized indivisible sentence is returned as
exactly that one chunk.  (The original claim that over-budget text always
yields more than one chunk is refuted by `claim3_counterexample`.) -/
theorem claim3_chunk_text_boundary (text : List Char) (max : Nat) :
    (count_tokens text ≤ max → chunk_text text max = [text]) ∧
    (∀ c ∈ chunk_text text max,
      count_tokens c ≤ max ∨ contains2 '.' ' ' c = false) ∧
    (∀ p ∈ split2 '\n' '\n' text, ∀ s ∈ split2 '.' ' ' p,
      ¬ count_tokens p ≤ max → ¬ count_tokens s ≤ max →
      s ∈ chunk_text text max) ∧
    (contains2 '\n' '\n' text = false → contains2 '.' ' ' text = false →
      ¬ count_tokens text ≤ max → chunk_text text max = [text]) := by
  refine ⟨?_, ?_, ?_, chunk_text_single_sentence text max⟩
  · intro h
    rw [chunk_text_def, if_pos h]
  · intro c hc
    by_cases h : count_tokens text ≤ max
    · rw [chunk_text_def, if_pos h, List.mem_singleton] at hc
      subst hc
      exact Or.inl h
    · rw [chunk_text_def, if_neg h] at hc
      have h0 := paragraph_fold_ok max (split2 '\n' '\n' text) [] []
        (fun c hcm => absurd hcm (List.not_mem_nil c)) (Nat.zero_le _)
      by_cases h3 : ((split2 '\n' '\n' text).foldl (paragraphStep max) ([], [])).2 = []
      · rw [if_pos h3] at hc
        exact h0.1 c hc
      · rw [if_neg h3] at hc
        rcases List.mem_append.mp hc with hA | hB
        · exact h0.1 c hA
        · rw [List.mem_singleton] at hB
          subst hB
          exact Or.inl h0.2
  · intro p hpmem s hsmem hp hs
    by_cases h : count_tokens text ≤ max
    · exact absurd (le_trans (count_tokens_le_of_length_le
        (split2_piece_length '\n' '\n' text p hpmem)) h) hp
    · rw [chunk_text_def, if_neg h]
      have hmem := paragraph_fold_emits_oversized max (split2 '\n' '\n' text)
        [] [] p s hpmem hp hsmem hs
      by_cases h4 : ((split2 '\n' '\n' text).foldl (paragraphStep max) ([], [])).2 = []
      · rw [if_pos h4]
        exact hmem
      · rw [if_neg h4]
        exact List.mem_append.mpr (Or.inl hmem)

/-- C3 counterexample: a single indivisible sentence estimated over the
default budget (8001 tokens against 8000) is returned as exactly ONE
chunk — and that chunk is the whole sentence, untouched — refuting the
claim that every over-budget text yields more than one chunk. -/
theorem claim3_counterexample :
    MAX_TOKENS_PER_CHUNK < count_tokens oversizedSentence ∧
      chunk_text oversizedSentence MAX_TOKENS_PER_CHUNK = [oversizedSentence] ∧
      (chunk_text oversizedSentence MAX_TOKENS_PER_CHUNK).length = 1 := by
  have hchar : ∀ sep : Char, sep ≠ 'a' → ∀ x ∈ oversizedSentence, x ≠ sep := by
    intro sep hsep x hx
    have hxa : x = 'a' := List.eq_of_mem_replicate hx
    subst hxa
    exact fun hcon => hsep hcon.symm
  have h1 : contains2 '\n' '\n' oversizedSentence = false :=
    contains2_of_ne _ _ _ (hchar '\n' (by decide))
  have h2 : contains2 '.' ' ' oversizedSentence = false :=
    contains2_of_ne _ _ _ (hchar '.' (by decide))
  have hnotle : ¬ count_tokens oversizedSentence ≤ MAX_TOKENS_PER_CHUNK := by
    rw [oversized_tokens, MAX_TOKENS_PER_CHUNK]
    norm_num
  have he := chunk_text_single_sentence oversizedSentence MAX_TOKENS_PER_CHUNK
    h1 h2 hnotle
  refine ⟨by rw [oversized_tokens, MAX_TOKENS_PER_CHUNK]; norm_num, he, ?_⟩
  rw [he]
  rfl

/-- C3 witness: a concrete short text is returned as one chunk equal to
itself. -/
theorem claim3_witness :
    chunk_text ('h' :: 'i' :: []) 1000 = [('h' :: 'i' :: [])] :=
  (claim3_chunk_text_boundary ('h' :: 'i' :: []) 1000).1 (by decide)

/-! ## Metrics lemmas -/

theorem findall_runStarts (cs : List Char) :
    ∀ prev : Char, findallCount cs (isWordChar prev) = runStartsAux prev cs := by
  induction cs with
  | nil => intro prev; rfl
  | cons c cs ih =>
    intro prev
    by_cases hw : isWordChar c = true
    · have h2 : findallCount cs true = runStartsAux c cs := by
        rw [← hw]
        exact ih c
      by_cases hp : isWordChar prev = true
      · simp [findallCount, runStartsAux, hw, hp, h2]
      · simp [findallCount, runStartsAux, hw, hp, h2]
    · have hw' : isWordChar c = false := by simpa using hw
      have h2 : findallCount cs false = runStartsAux c cs := by
        rw [← hw']
        exact ih c
      simp [findallCount, runStartsAux, hw', h2]

theorem findall_eq_wordRuns (s : List Char) : findallCount s false = wordRuns s := by
  cases s with
  | nil => rfl
  | cons c cs =>
    have h2 : findallCount cs (isWordChar c) = runStartsAux c cs :=
      findall_runStarts cs c
    by_cases hw : isWordChar c = true
    · rw [hw] at h2
      simp [findallCount, wordRuns, hw, h2]
    · have hw' : isWordChar c = false := by simpa using hw
      rw [hw'] at h2
      simp [findallCount, wordRuns, hw', h2]

/-- C4: `calculate_text_metrics` returns the character count of the text
together with the number of maximal runs of word characters
(alphanumeric plus underscore); punctuation and whitespace never count,
hyphens split words, and empty or null input yields `(0, 0)`; the spec's
concrete examples hold. -/
theorem claim4_metrics :
    (∀ s : List Char, calculate_text_metrics (some s) = (wordRuns s, s.length)) ∧
    calculate_text_metrics none = (0, 0) ∧
    calculate_text_metrics (some []) = (0, 0) ∧
    calculate_text_metrics (some "Hello world".data) = (2, 11) ∧
    calculate_text_metrics (some "Hello, world! How are you?".data) = (5, 26) ∧
    calculate_text_metrics (some "Hello    world   test".data) = (3, 21) ∧
    calculate_text_metrics (some "well-known".data) = (2, 10) := by
  refine ⟨?_, rfl, rfl, by decide, by decide, by decide, by decide⟩
  intro s
  by_cases h : s = []
  · subst h
    rfl
  · show (if s = [] then (0, 0) else (findallCount s false, s.length)) = _
    rw [if_neg h, findall_eq_wordRuns]

/-! ## Summarizer lemmas -/

theorem summ_fold (oracle : List Char → List Char) (chunks : List (List Char)) :
    ∀ (s c : List (List Char)),
    chunks.foldl (fun acc ch => (acc.1 ++ [oracle ch], acc.2 ++ [ch])) (s, c) =
      (s ++ chunks.map oracle, c ++ chunks) := by
  induction chunks with
  | nil =>
    intro s c
    simp
  | cons ch rest ih =>
    intro s c
    rw [List.foldl_cons]
    show rest.foldl _ (s ++ [oracle ch], c ++ [ch]) = _
    rw [ih]
    simp

theorem summarize_document_some (oracle : List Char → List Char) (text : List Char) :
    summarize_document oracle (some text) =
      if text.all Char.isWhitespace then ([], [])
      else if count_tokens text ≤ MAX_TOKENS_PER_CHUNK then (oracle text, [text])
      else
        ((fun folded =>
          (fun combined =>
            if MAX_TOKENS_PER_CHUNK < count_tokens combined then
              (oracle combined, folded.2 ++ [combined])
            else (combined, folded.2))
          (List.intercalate ('\n' :: '\n' :: []) folded.1))
         ((chunk_text text MAX_TOKENS_PER_CHUNK).foldl
            (fun acc c => (acc.1 ++ [oracle c], acc.2 ++ [c])) ([], []))) := rfl

theorem summarize_document_chunked (oracle : List Char → List Char) (text : List Char)
    (hw : text.all Char.isWhitespace = false)
    (ht : MAX_TOKENS_PER_CHUNK < count_tokens text) :
    summarize_document oracle (some text) = spec_chunked_summary oracle text := by
  have hw' : ¬ (text.all Char.isWhitespace = true) := by simp [hw]
  have hle' : ¬ (count_tokens text ≤ MAX_TOKENS_PER_CHUNK) := not_le.mpr ht
  rw [summarize_document_some, if_neg hw', if_neg hle',
    summ_fold oracle (chunk_text text MAX_TOKENS_PER_CHUNK) [] []]
  simp only [List.nil_append]
  rfl

/-- C5: for text requiring chunking, `summarize_document` performs one
summarization call per chunk in chunk order, joins the chunk summaries
with a blank-line separator preserving order, and, when the joined result
still exceeds the per-chunk budget, performs exactly one collapse pass
and returns its output directly (`spec_chunked_summary` is precisely that
two-level reduction; the second component lists the summarization-call
arguments in order). -/
theorem claim5_two_level_reduction (oracle : List Char → List Char) (text : List Char)
    (hw : text.all Char.isWhitespace = false)
    (ht : MAX_TOKENS_PER_CHUNK < count_tokens text) :
    summarize_document oracle (some text) = spec_chunked_summary oracle text :=
  summarize_document_chunked oracle text hw ht

/-- C5 witness: the theorem applied to a concrete over-budget text and a
concrete oracle. -/
theorem claim5_witness :
    summarize_document (fun _ => ('s' :: [])) (some oversizedSentence) =
      spec_chunked_summary (fun _ => ('s' :: [])) oversizedSentence :=
  claim5_two_level_reduction (fun _ => ('s' :: [])) oversizedSentence
    oversized_not_ws (by rw [oversized_tokens, MAX_TOKENS_PER_CHUNK]; norm_num)

/-- C6: with no API credential, or when the external call errors, a chunk
of at most 500 characters is returned unchanged and a longer chunk is
truncated to its first 500 characters plus `"..."`; and the fallback is
applied independently per chunk of a document: the combined document
summary is the blank-line join of the per-chunk `summarize_chunk`
results, each with its own call outcome. -/
theorem claim6_fallback (config : LlmConfig) (api : ApiOutcome) (chunk : List Char)
    (h : config.api_key = [] ∨ ∃ m, api = ApiOutcome.apiError m) :
    (chunk.length ≤ 500 → summarize_chunk config api chunk = chunk) ∧
    (500 < chunk.length →
      summarize_chunk config api chunk =
        chunk.take 500 ++ ('.' :: '.' :: '.' :: [])) ∧
    (∀ (apiOf : List Char → ApiOutcome) (text : List Char),
      text.all Char.isWhitespace = false →
      MAX_TOKENS_PER_CHUNK < count_tokens text →
      count_tokens (List.intercalate ('\n' :: '\n' :: [])
        ((chunk_text text MAX_TOKENS_PER_CHUNK).map
          (fun c => summarize_chunk config (apiOf c) c))) ≤ MAX_TOKENS_PER_CHUNK →
      (summarize_document (fun c => summarize_chunk config (apiOf c) c)
          (some text)).1 =
        List.intercalate ('\n' :: '\n' :: [])
          ((chunk_text text MAX_TOKENS_PER_CHUNK).map
            (fun c => summarize_chunk config (apiOf c) c))) := by
  have hfb : summarize_chunk config api chunk =
      if 500 < chunk.length then chunk.take 500 ++ ('.' :: '.' :: '.' :: [])
      else chunk := by
    rcases h with hk | ⟨m, hm⟩
    · rw [summarize_chunk.eq_def, if_pos hk]
    · subst hm
      by_cases hk : config.api_key = []
      · rw [summarize_chunk.eq_def, if_pos hk]
      · rw [summarize_chunk.eq_def, if_neg hk]
  refine ⟨?_, ?_, ?_⟩
  · intro hlen
    rw [hfb, if_neg (not_lt.mpr hlen)]
  · intro hlen
    rw [hfb, if_pos hlen]
  · intro apiOf text hws htok hcomb
    rw [summarize_document_chunked _ _ hws htok, spec_chunked_summary]
    rw [if_neg (not_lt.mpr hcomb)]

/-- C6 witness: with no API key a short chunk comes back unchanged. -/
theorem claim6_witness :
    summarize_chunk (LlmConfig.mk [] [] []) (ApiOutcome.ok ('x' :: []))
      ('h' :: 'i' :: []) = ('h' :: 'i' :: []) :=
  (claim6_fallback (LlmConfig.mk [] [] []) (ApiOutcome.ok ('x' :: []))
    ('h' :: 'i' :: []) (Or.inl rfl)).1 (by decide)

/-- C7: empty, null, or whitespace-only input produces an empty summary
and no summarization call. -/
theorem claim7_empty_short_circuit (oracle : List Char → List Char)
    (text : List Char) (h : text.all Char.isWhitespace = true) :
    summarize_document oracle (some text) = ([], []) ∧
      summarize_document oracle none = ([], []) := by
  constructor
  · rw [summarize_document_some, if_pos h]
  · rfl

/-- C7 witness: the theorem applied to a single-space text. -/
theorem claim7_witness :
    summarize_document (fun c => c) (some (' ' :: [])) = ([], []) :=
  (claim7_empty_short_circuit (fun c => c) (' ' :: []) (by decide)).1

/-! ## Orchestrator theorems -/

/-- C1: when the duplicate check reports the file's hash as already
present, `process_single_pdf` returns a result with `success = true` and
`skipped = true`, and neither the text extractor nor the metrics
calculator nor the persistence call is ever invoked. -/
theorem claim1_duplicate_short_circuit {σ : Type} (env : PdfEnv σ) (state : σ)
    (filename : List Char) (g : Bool) (h : List Char)
    (h1 : env.md5Hash = Except.ok h) (h2 : env.dupCheck h state = true) :
    (process_single_pdf env state filename g).1.success = true ∧
    (process_single_pdf env state filename g).1.skipped = true ∧
    FrontCall.extractCall ∉ (process_single_pdf env state filename g).2.2 ∧
    FrontCall.metricsCall ∉ (process_single_pdf env state filename g).2.2 ∧
    FrontCall.saveCall ∉ (process_single_pdf env state filename g).2.2 := by
  have hp : process_single_pdf env state filename g =
      ({ success := true, skipped := true, message := some (dupMessage filename) },
       state, [FrontCall.hashCall, FrontCall.dupCheckCall]) := by
    rw [process_single_pdf.eq_def, h1]
    dsimp only
    rw [if_pos h2]
  rw [hp]
  refine ⟨rfl, rfl, ?_, ?_, ?_⟩ <;> simp

/-- C1 witness: the theorem applied to a concrete environment whose
duplicate check answers true. -/
theorem claim1_witness :
    (process_single_pdf
      (PdfEnv.mk (σ := Unit) (Except.ok ('h' :: [])) (fun _ _ => true)
        (Except.ok []) (fun _ _ _ _ _ _ s => ({ success := true }, s)))
      () ('f' :: []) true).1.skipped = true :=
  (claim1_duplicate_short_circuit _ () ('f' :: []) true ('h' :: []) rfl rfl).2.1

theorem batchStep_def {σ : Type} (envOf : List Char → PdfEnv σ) (g : Bool)
    (s k f : Nat) (rs : List (List Char × PResult)) (st : σ) (p : List Char) :
    batchStep envOf g (s, k, f, rs, st) p =
      if (process_single_pdf (envOf p) st (pathBasename p) g).1.success then
        if (process_single_pdf (envOf p) st (pathBasename p) g).1.skipped then
          (s, k + 1, f,
           rs ++ [(pathBasename p, (process_single_pdf (envOf p) st (pathBasename p) g).1)],
           (process_single_pdf (envOf p) st (pathBasename p) g).2.1)
        else
          (s + 1, k, f,
           rs ++ [(pathBasename p, (process_single_pdf (envOf p) st (pathBasename p) g).1)],
           (process_single_pdf (envOf p) st (pathBasename p) g).2.1)
      else
        (s, k, f + 1,
         rs ++ [(pathBasename p, (process_single_pdf (envOf p) st (pathBasename p) g).1)],
         (process_single_pdf (envOf p) st (pathBasename p) g).2.1) := rfl

theorem batch_fold_inv {σ : Type} (envOf : List Char → PdfEnv σ) (g : Bool)
    (files : List (List Char)) :
    ∀ (s k f : Nat) (rs : List (List Char × PResult)) (st : σ),
    (files.foldl (batchStep envOf g) (s, k, f, rs, st)).1 +
      (files.foldl (batchStep envOf g) (s, k, f, rs, st)).2.1 +
      (files.foldl (batchStep envOf g) (s, k, f, rs, st)).2.2.1 =
        s + k + f + files.length ∧
    (files.foldl (batchStep envOf g) (s, k, f, rs, st)).2.2.2.1.map Prod.fst =
      rs.map Prod.fst ++ files.map pathBasename := by
  induction files with
  | nil =>
    intro s k f rs st
    simp
  | cons p rest ih =>
    intro s k f rs st
    rw [List.foldl_cons, batchStep_def]
    by_cases hsucc : (process_single_pdf (envOf p) st (pathBasename p) g).1.success = true
    · rw [if_pos hsucc]
      by_cases hskip : (process_single_pdf (envOf p) st (pathBasename p) g).1.skipped = true
      · rw [if_pos hskip]
        rcases ih s (k + 1) f
          (rs ++ [(pathBasename p, (process_single_pdf (envOf p) st (pathBasename p) g).1)])
          ((process_single_pdf (envOf p) st (pathBasename p) g).2.1) with ⟨hsum, hmap⟩
        refine ⟨by rw [hsum]; simp; omega, by rw [hmap]; simp⟩
      · rw [if_neg hskip]
        rcases ih (s + 1) k f
          (rs ++ [(pathBasename p, (process_single_pdf (envOf p) st (pathBasename p) g).1)])
          ((process_single_pdf (envOf p) st (pathBasename p) g).2.1) with ⟨hsum, hmap⟩
        refine ⟨by rw [hsum]; simp; omega, by rw [hmap]; simp⟩
    · rw [if_neg hsucc]
      rcases ih s k (f + 1)
        (rs ++ [(pathBasename p, (process_single_pdf (envOf p) st (pathBasename p) g).1)])
        ((process_single_pdf (envOf p) st (pathBasename p) g).2.1) with ⟨hsum, hmap⟩
      refine ⟨by rw [hsum]; simp; omega, by rw [hmap]; simp⟩

/-- C2: for any batch of files, the successful, skipped and failed
counts of `process_pdf_batch` sum to the number of files, and the result
list has exactly one entry per input file, in input order (its filename
column is the basename of each input path, in order). -/
theorem claim2_batch_accounting {σ : Type} (envOf : List Char → PdfEnv σ)
    (files : List (List Char)) (g : Bool) (st : σ) :
    (process_pdf_batch envOf files g st).successful +
      (process_pdf_batch envOf files g st).skipped +
      (process_pdf_batch envOf files g st).failed = files.length ∧
    (process_pdf_batch envOf files g st).results.length = files.length ∧
    (process_pdf_batch envOf files g st).results.map Prod.fst =
      files.map pathBasename := by
  rcases batch_fold_inv envOf g files 0 0 0 [] st with ⟨hsum, hmap⟩
  refine ⟨by simpa using hsum, ?_, by simpa using hmap⟩
  have hlen := congrArg List.length hmap
  rw [List.length_map, List.length_append, List.length_map, List.length_map] at hlen
  simpa using hlen

/-! ## Store and backend theorems -/

theorem save_extracted_text_records (db : Db) (fn text : List Char) (wc cl : Nat)
    (summ md5 : Option (List Char)) (ts : Nat) :
    (save_extracted_text db fn text wc cl summ md5 ts).2.records = db.records ∨
    (save_extracted_text db fn text wc cl summ md5 ts).2.records =
      db.records ++ [⟨nextId db.records, fn, text, wc, cl, summ, md5, ts⟩] := by
  rw [save_extracted_text.eq_def]
  by_cases hb : db.broken = true
  · rw [if_pos hb]
    left
    rfl
  · rw [if_neg hb]
    cases md5 with
    | none =>
      right
      rfl
    | some h =>
      dsimp only
      by_cases hd : db.records.any (fun r => r.md5_hash = some h) = true
      · rw [if_pos hd]
        left
        rfl
      · rw [if_neg hd]
        right
        rfl

theorem process_pdf_state (db : Db)
    (summarizer : List Char → Except (List Char) (List Char)) (ts : Nat)
    (req : PDFProcessRequest) :
    (process_pdf db summarizer ts req).2.1.records = db.records ∨
    ∃ summ, (process_pdf db summarizer ts req).2.1.records =
      db.records ++ [⟨nextId db.records, req.filename, req.extracted_text,
        req.word_count, req.character_length, summ, req.md5_hash, ts⟩] := by
  have hrest :
      (process_pdf_rest db summarizer ts req [BackCall.dupCheckCall]).2.1.records =
        db.records ∨
      ∃ summ, (process_pdf_rest db summarizer ts req [BackCall.dupCheckCall]).2.1.records =
        db.records ++ [⟨nextId db.records, req.filename, req.extracted_text,
          req.word_count, req.character_length, summ, req.md5_hash, ts⟩] := by
    rcases save_extracted_text_records db req.filename req.extracted_text
      req.word_count req.character_length (computed_summary summarizer req)
      req.md5_hash ts with hA | hB
    · left
      exact hA
    · right
      exact ⟨computed_summary summarizer req, hB⟩
  have hrest0 :
      (process_pdf_rest db summarizer ts req []).2.1.records = db.records ∨
      ∃ summ, (process_pdf_rest db summarizer ts req []).2.1.records =
        db.records ++ [⟨nextId db.records, req.filename, req.extracted_text,
          req.word_count, req.character_length, summ, req.md5_hash, ts⟩] := by
    rcases save_extracted_text_records db req.filename req.extracted_text
      req.word_count req.character_length (computed_summary summarizer req)
      req.md5_hash ts with hA | hB
    · left
      exact hA
    · right
      exact ⟨computed_summary summarizer req, hB⟩
  rw [process_pdf.eq_def]
  by_cases h1 : pyTruthy req.md5_hash = true
  · rw [if_pos h1]
    by_cases h2 : check_duplicate_by_hash db (req.md5_hash.getD []) = true
    · rw [if_pos h2]
      left
      rfl
    · rw [if_neg h2]
      exact hrest
  · rw [if_neg h1]
    exact hrest0

theorem update_summary_core (id : Nat) (s : List Char) (l : List Record) :
    (l.map (fun r => if r.id = id then { r with summary := some s } else r)).map
        recordCore = l.map recordCore := by
  induction l with
  | nil => rfl
  | cons r t ih =>
    rw [List.map_cons, List.map_cons, List.map_cons, ih]
    by_cases hid : r.id = id
    · rw [if_pos hid]
      rfl
    · rw [if_neg hid]

/-- C8: a record inserted by the end-to-end pipeline always carries
`word_count` and `character_length` equal to the metrics calculator
applied to its own `extracted_text` (only pre-existing records can
differ), and the only later mutation, `update_record_summary`, edits
nothing but the `summary` column. -/
theorem claim8_metrics_consistency (db : Db)
    (summarizer : List Char → Except (List Char) (List Char)) (ts : Nat)
    (hashO extractO : Except (List Char) (List Char))
    (dup : List Char → Db → Bool) (fn : List Char) (g : Bool) :
    (∀ r ∈ (pipeline_process_single db summarizer ts hashO extractO dup fn g).2.1.records,
       r ∈ db.records ∨
       (r.word_count, r.character_length) =
         calculate_text_metrics (some r.extracted_text)) ∧
    (∀ (db2 : Db) (id : Nat) (s : List Char),
       ((update_record_summary db2 id s).2.records).map recordCore =
         db2.records.map recordCore) := by
  constructor
  · intro r hr
    rcases hashO with e | hsh
    · left
      exact hr
    · by_cases hd : dup hsh db = true
      · have hp : (pipeline_process_single db summarizer ts (Except.ok hsh)
            extractO dup fn g).2.1 = db := by
          rw [pipeline_process_single, process_single_pdf.eq_def]
          dsimp only [backendEnv]
          rw [if_pos hd]
        rw [hp] at hr
        left
        exact hr
      · rcases extractO with e | text
        · left
          have hp : (pipeline_process_single db summarizer ts (Except.ok hsh)
              (Except.error e) dup fn g).2.1 = db := by
            rw [pipeline_process_single, process_single_pdf.eq_def]
            dsimp only [backendEnv]
            rw [if_neg hd]
          rw [hp] at hr
          exact hr
        · have hp : (pipeline_process_single db summarizer ts (Except.ok hsh)
              (Except.ok text) dup fn g).2.1 =
              (process_pdf db summarizer ts
                ⟨fn, text, (calculate_text_metrics (some text)).1,
                 (calculate_text_metrics (some text)).2, g, some hsh⟩).2.1 := by
            rw [pipeline_process_single, process_single_pdf.eq_def]
            dsimp only [backendEnv]
            rw [if_neg hd]
          rw [hp] at hr
          rcases process_pdf_state db summarizer ts
            ⟨fn, text, (calculate_text_metrics (some text)).1,
             (calculate_text_metrics (some text)).2, g, some hsh⟩ with hA | ⟨summ, hB⟩
          · rw [hA] at hr
            left
            exact hr
          · rw [hB] at hr
            rcases List.mem_append.mp hr with hA2 | hB2
            · left
              exact hA2
            · rw [List.mem_singleton] at hB2
              subst hB2
              right
              rfl
  · intro db2 id s
    rw [update_record_summary.eq_def]
    by_cases hb : db2.broken = true
    · rw [if_pos hb]
    · rw [if_neg hb]
      exact update_summary_core id s db2.records

/-- C8 witness: the consistency fact extracted for the record concretely
inserted by a pipeline run over an empty store. -/
theorem claim8_witness :
    ((1 : Nat), (2 : Nat)) = calculate_text_metrics (some ('a' :: 'b' :: [])) :=
  ((claim8_metrics_consistency ⟨false, []⟩ (fun _ => Except.error []) 0
      (Except.ok ('h' :: [])) (Except.ok ('a' :: 'b' :: [])) (fun _ _ => false)
      ('f' :: []) false).1
    ⟨1, 'f' :: [], 'a' :: 'b' :: [], 1, 2, none, some ('h' :: []), 0⟩
    (by decide)).resolve_left (by decide)

/-- C9: a request without a content hash never goes through the
duplicate check, always proceeds to the persistence call, and is never
reported as skipped. -/
theorem claim9_no_hash (db : Db)
    (summarizer : List Char → Except (List Char) (List Char)) (ts : Nat)
    (req : PDFProcessRequest) (h : req.md5_hash = none) :
    BackCall.dupCheckCall ∉ (process_pdf db summarizer ts req).2.2 ∧
    BackCall.saveCall ∈ (process_pdf db summarizer ts req).2.2 ∧
    responseSkipped (process_pdf db summarizer ts req).1 = false := by
  have hpt : ¬ (pyTruthy req.md5_hash = true) := by
    rw [h]
    simp [pyTruthy]
  have hP : process_pdf db summarizer ts req =
      process_pdf_rest db summarizer ts req [] := by
    rw [process_pdf.eq_def, if_neg hpt]
  rw [hP]
  refine ⟨?_, ?_, ?_⟩
  · show BackCall.dupCheckCall ∉ ([] : List BackCall) ++
      (if req.generate_summary && !req.extracted_text.isEmpty then
        [BackCall.summarizeCall] else []) ++ [BackCall.saveCall]
    by_cases hds : (req.generate_summary && !req.extracted_text.isEmpty) = true
    · rw [if_pos hds]
      decide
    · rw [if_neg hds]
      decide
  · show BackCall.saveCall ∈ ([] : List BackCall) ++
      (if req.generate_summary && !req.extracted_text.isEmpty then
        [BackCall.summarizeCall] else []) ++ [BackCall.saveCall]
    by_cases hds : (req.generate_summary && !req.extracted_text.isEmpty) = true
    · rw [if_pos hds]
      decide
    · rw [if_neg hds]
      decide
  · show responseSkipped
      (if (save_extracted_text db req.filename req.extracted_text req.word_count
            req.character_length (computed_summary summarizer req)
            req.md5_hash ts).1 = true then
         ApiResponse.ok true false ("Successfully processed ".data ++ req.filename)
           (if pyTruthy (computed_summary summarizer req) then
             computed_summary summarizer req else none)
       else ApiResponse.httpError 500 "Failed to save to database".data) = false
    by_cases hs : (save_extracted_text db req.filename req.extracted_text
        req.word_count req.character_length (computed_summary summarizer req)
        req.md5_hash ts).1 = true
    · rw [if_pos hs]
      rfl
    · rw [if_neg hs]
      rfl

/-- C9 witness: the persistence call is made for a concrete no-hash
request. -/
theorem claim9_witness :
    BackCall.saveCall ∈ (process_pdf ⟨false, []⟩ (fun _ => Except.error []) 0
      ⟨'f' :: [], 'a' :: [], 1, 1, false, none⟩).2.2 :=
  (claim9_no_hash ⟨false, []⟩ (fun _ => Except.error []) 0
    ⟨'f' :: [], 'a' :: [], 1, 1, false, none⟩ rfl).2.1

/-- C10: an error raised during the duplicate lookup is reported as
"not a duplicate": a broken store makes `check_duplicate_by_hash` return
`False`, an HTTP error makes the frontend `check_duplicate_hash` return
`False`, and with a `False` duplicate check `process_single_pdf`
proceeds to invoke the extractor. -/
theorem claim10_storage_error_not_duplicate :
    (∀ (recs : List Record) (h : List Char),
       check_duplicate_by_hash ⟨true, recs⟩ h = false) ∧
    (∀ e : List Char, check_duplicate_hash (Except.error e) = false) ∧
    (∀ (σ : Type) (env : PdfEnv σ) (st : σ) (fn : List Char) (g : Bool)
       (hsh : List Char), env.md5Hash = Except.ok hsh →
       env.dupCheck hsh st = false →
       FrontCall.extractCall ∈ (process_single_pdf env st fn g).2.2) := by
  refine ⟨fun recs h => rfl, fun e => rfl, ?_⟩
  intro σ env st fn g hsh h1 h2
  rw [process_single_pdf.eq_def, h1]
  dsimp only
  rw [if_neg (by simp [h2])]
  rcases hext : env.extractText with e | text
  · simp
  · simp

/-- C10 witness: the extractor is invoked in a concrete environment whose
duplicate check answers false. -/
theorem claim10_witness :
    FrontCall.extractCall ∈ (process_single_pdf
      (PdfEnv.mk (σ := Unit) (Except.ok ('h' :: [])) (fun _ _ => false)
        (Except.ok []) (fun _ _ _ _ _ _ s => ({ success := true }, s)))
      () ('f' :: []) false).2.2 :=
  claim10_storage_error_not_duplicate.2.2 Unit _ () ('f' :: []) false ('h' :: [])
    rfl rfl

end DocsPipeline
